import Mathlib

/-!
Verification of the ADAM `nodeBitmapAnd.c` executor node
(`src/backend/executor/nodeBitmapAnd.c`).

A shallow embedding: `TIDBitmap` is a finite set of tuple identifiers
(modelled as naturals); a child plan state is a record carrying the facts
the combinator inspects or mutates (whether the child is a VA-index scan,
the candidate set its execution yields, its `biss_result` sink and
whether its `adamScanClause` pointer was set).  The shared
`AdamScanClause` object (`node->ps.plan->adamPlanClause`, aliased by
every VA-probe's scan state) is threaded through the execution loop as a
single `Option AdamScanClause` value.  `tbm_create` yields an empty set;
the capacity hint does not affect contents.
-/

/-- Candidate sets (`TIDBitmap`): finite sets of tuple identifiers. -/
abbrev TIDBitmap := Finset ℕ

/-- The mutable similarity clause (`AdamScanClause`): `check_tid` is the
spec's `checkAgainstCandidates`, `nn_limit` the spec's `resultLimit`
(`-1` meaning unlimited). -/
structure AdamScanClause where
  check_tid : Bool
  nn_limit : Int
deriving DecidableEq

/-- Runtime state of one child subplan.  `isVAIndex` abbreviates the
source's conjunction `IsA(subnode, BitmapIndexScanState) &&
biss_RelationDesc != NULL && rd_rel->relam == VA_AM_OID`; `output` is the
value `MultiExecProcNode` returns for this child (`none` models a result
that is not a valid `TIDBitmap`); `biss_result` is the accumulator value
the combinator stores into `scanState->biss_result` (the pointer's
target at assignment time); `hasAdamScanClause` records whether
`scanState->adamScanClause` was set to a non-null clause. -/
structure ChildState where
  isVAIndex : Bool
  output : Option TIDBitmap
  biss_result : Option TIDBitmap
  hasAdamScanClause : Bool
deriving DecidableEq

/-- The `BitmapAndState` node: its ordered child states, the plan's
`adamPlanClause` template and the node's `limit`. -/
structure BitmapAndState where
  bitmapplans : List ChildState
  adamPlanClause : Option AdamScanClause
  limit : Int
deriving DecidableEq

/-- A child subplan as found in the `BitmapAnd` plan node, before
`ExecInitNode` builds its runtime state. -/
structure ChildPlan where
  isVAIndex : Bool
  output : Option TIDBitmap
deriving DecidableEq

/-- The `BitmapAnd` plan node handed to `ExecInitBitmapAnd`. -/
structure BitmapAnd where
  bitmapplans : List ChildPlan
  adamPlanClause : Option AdamScanClause
  limit : Int
deriving DecidableEq

/-- `ExecInitNode` for a child: fresh runtime state, `biss_result` and
`adamScanClause` not yet set (the state array comes from `palloc0`). -/
def ExecInitNode (p : ChildPlan) : ChildState :=
  ⟨p.isVAIndex, p.output, none, false⟩

/-- `ExecInitBitmapAnd`: initialize every child in plan order; `nplans`
is the length of the resulting list.  No validation of the child count
or of the number of VA probes happens here. -/
def ExecInitBitmapAnd (node : BitmapAnd) : BitmapAndState :=
  ⟨node.bitmapplans.map ExecInitNode, node.adamPlanClause, node.limit⟩

/-- Swap the elements at positions `i` and `j` (the in-place pointer swap
at lines 126-128 of the source); out-of-range indices leave the list
unchanged. -/
def listSwap (l : List ChildState) (i j : ℕ) : List ChildState :=
  match l[i]?, l[j]? with
  | some a, some b => (l.set i b).set j a
  | _, _ => l

/-- One iteration of the reordering loop (source lines 118-131): if the
child at `i` is a VA-index scan and `i` is not the last position, swap it
with the last element. -/
def reorderStep (ps : List ChildState) (i : ℕ) : List ChildState :=
  match ps[i]? with
  | some c =>
      if c.isVAIndex = true ∧ i ≠ ps.length - 1 then
        listSwap ps i (ps.length - 1)
      else ps
  | none => ps

/-- The reordering loop, `i` counting up while `fuel` steps remain. -/
def reorderAux (ps : List ChildState) (i fuel : ℕ) : List ChildState :=
  match fuel with
  | 0 => ps
  | fuel + 1 => reorderAux (reorderStep ps i) (i + 1) fuel

/-- The full reordering pass: `for (i = 0; i < nplans; i++)`. -/
def reorder (ps : List ChildState) : List ChildState :=
  reorderAux ps 0 ps.length

/-- Errors `MultiExecBitmapAnd` can raise: zero inputs
(`BitmapAnd doesn't support zero inputs`) and an invalid child result
(`unrecognized result from subplan`). -/
inductive ExecError where
  | NoChildren
  | UnrecognizedResult
deriving DecidableEq

/-- One iteration of the AND loop body (source lines 136-208) at loop
index `i`, given the shared plan clause and the current accumulator
(`none` = the C `result == NULL`).  Returns the updated child state, the
updated clause and the new accumulator value. -/
def execStep (limit : Int) (i : ℕ) (planClause : Option AdamScanClause)
    (result : Option TIDBitmap) (c : ChildState) :
    Except ExecError (ChildState × Option AdamScanClause × TIDBitmap) :=
  let cfg :
      ChildState × Option AdamScanClause × Option TIDBitmap × Bool :=
    if c.isVAIndex = true then
      let res1 : TIDBitmap := result.getD ∅
      let planClause1 :=
        planClause.map fun _ =>
          if i ≠ 0 then ⟨true, limit⟩
          else ⟨false, -1⟩
      (⟨c.isVAIndex, c.output, some res1, planClause.isSome⟩,
        planClause1, some res1, planClause.isSome)
    else (c, planClause, result, false)
  match cfg.2.2.2, cfg.1.output with
  | _, none => .error .UnrecognizedResult
  | no_intersect, some subresult =>
      let newres :=
        match cfg.2.2.1 with
        | none => subresult
        | some r => if no_intersect then subresult else r ∩ subresult
      .ok (cfg.1, cfg.2.1, newres)

/-- The AND loop over the (already reordered) children, starting at loop
index `i` with accumulator `res`.  Returns the final child states, the
final clause, the final accumulator and the list of accumulator values
after each executed child (so executed children = positions
`< accums.length`).  The loop breaks as soon as the accumulator is
empty. -/
def execLoop (limit : Int) :
    List ChildState → ℕ → Option AdamScanClause → Option TIDBitmap →
    Except ExecError
      (List ChildState × Option AdamScanClause × Option TIDBitmap ×
        List TIDBitmap)
  | [], _, pc, res => .ok ([], pc, res, [])
  | c :: rest, i, pc, res =>
    match execStep limit i pc res c with
    | .error e => .error e
    | .ok (c1, pc1, newres) =>
      if newres = ∅ then .ok (c1 :: rest, pc1, some newres, [newres])
      else
        match execLoop limit rest (i + 1) pc1 (some newres) with
        | .error e => .error e
        | .ok (rest1, pc2, res2, accums) =>
            .ok (c1 :: rest1, pc2, res2, newres :: accums)

/-- The observable outcome of a successful `MultiExecBitmapAnd` call:
final child states, final shared clause, returned bitmap, and the
accumulator trace (one entry per executed child). -/
structure ExecOutcome where
  plans : List ChildState
  planClause : Option AdamScanClause
  result : TIDBitmap
  accums : List TIDBitmap
deriving DecidableEq

/-- `MultiExecBitmapAnd` (source lines 97-218): run the reordering pass,
then the AND loop; error with `NoChildren` if the accumulator is still
null afterwards. -/
def MultiExecBitmapAnd (node : BitmapAndState) :
    Except ExecError ExecOutcome :=
  match execLoop node.limit (reorder node.bitmapplans) 0
      node.adamPlanClause none with
  | .error e => .error e
  | .ok (plans1, pc, res, accums) =>
    match res with
    | none => .error .NoChildren
    | some r => .ok ⟨plans1, pc, r, accums⟩

instance {ε α : Type} [DecidableEq ε] [DecidableEq α] :
    DecidableEq (Except ε α)
  | .ok a, .ok b =>
      if h : a = b then .isTrue (by rw [h]) else .isFalse (by simp [h])
  | .error a, .error b =>
      if h : a = b then .isTrue (by rw [h]) else .isFalse (by simp [h])
  | .ok _, .error _ => .isFalse (by simp)
  | .error _, .ok _ => .isFalse (by simp)

/-- Changed-parameter sets (`Bitmapset`): the C `NULL` is the empty
set. -/
abbrev ParamSet := Finset ℕ

/-- Modelled from the spec: `UpdateChangedParamSet` is declared in the
executor headers but its body is not part of this repository; the spec
says the node merges its own pending changed-parameter set into the
child's pending set. -/
def UpdateChangedParamSet (childSet parentSet : ParamSet) : ParamSet :=
  childSet ∪ parentSet

/-- One child of `ExecReScanBitmapAnd` (source lines 256-273): merge the
node's pending set into the child's when the node's is non-empty, then
rescan the child now exactly when its pending set is empty.  Returns the
child's new pending set and whether `ExecReScan` was called on it. -/
def rescanChild (nodeChg childChg : ParamSet) : ParamSet × Bool :=
  let childChg1 :=
    if nodeChg ≠ ∅ then UpdateChangedParamSet childChg nodeChg
    else childChg
  (childChg1, childChg1 = ∅)

/-- `ExecReScanBitmapAnd`: apply `rescanChild` to every child's pending
set. -/
def ExecReScanBitmapAnd (nodeChg : ParamSet) (childChgs : List ParamSet) :
    List (ParamSet × Bool) :=
  childChgs.map (rescanChild nodeChg)

/-- Modelled from the spec only, for comparison with `reorder`: the
reordering the spec describes, a stable partition that keeps the plain
children in their relative order and appends the VA probes at the
end. -/
def stableReorder (ps : List ChildState) : List ChildState :=
  ps.filter (fun c => !c.isVAIndex) ++ ps.filter (fun c => c.isVAIndex)

/-- Accumulator produced by a run of plain children with outputs `outs`
starting from a null accumulator: the running intersection. -/
def accOf : List TIDBitmap → TIDBitmap
  | [] => ∅
  | s :: rest => rest.foldl (· ∩ ·) s

/-- All running intersections stay non-empty while folding `outs` into
accumulator `a` (so the AND loop never breaks inside this run). -/
def noBreak (a : TIDBitmap) : List TIDBitmap → Bool
  | [] => true
  | s :: rest => if a ∩ s = ∅ then false else noBreak (a ∩ s) rest

/-- Starting from a null accumulator, all running intersections of
`outs` are non-empty. -/
def frontOK : List TIDBitmap → Bool
  | [] => true
  | s :: rest => if s = ∅ then false else noBreak s rest

/-- The child at position `j`, if any, is not a VA-index scan. -/
def plainAt (ps : List ChildState) (j : ℕ) : Bool :=
  (ps[j]?).all fun c => !c.isVAIndex

lemma listSwap_length (l : List ChildState) (i j : ℕ) :
    (listSwap l i j).length = l.length := by
  unfold listSwap
  cases h1 : l[i]? <;> cases h2 : l[j]? <;> simp

lemma listSwap_getElem?_other (l : List ChildState) {i j k : ℕ}
    (hik : k ≠ i) (hjk : k ≠ j) : (listSwap l i j)[k]? = l[k]? := by
  unfold listSwap
  cases h1 : l[i]? <;> cases h2 : l[j]? <;>
    simp [List.getElem?_set_ne (Ne.symm hjk), List.getElem?_set_ne (Ne.symm hik)]

lemma listSwap_getElem?_snd (l : List ChildState) {i j : ℕ} {a b : ChildState}
    (ha : l[i]? = some a) (hb : l[j]? = some b) :
    (listSwap l i j)[j]? = some a := by
  have hj : j < l.length := (List.getElem?_eq_some.mp hb).1
  unfold listSwap
  rw [ha, hb]
  exact List.getElem?_set_eq_of_lt a (by rw [List.length_set]; exact hj)

lemma listSwap_getElem?_fst (l : List ChildState) {i j : ℕ} {a b : ChildState}
    (hij : i ≠ j) (ha : l[i]? = some a) (hb : l[j]? = some b) :
    (listSwap l i j)[i]? = some b := by
  have hi : i < l.length := (List.getElem?_eq_some.mp ha).1
  unfold listSwap
  rw [ha, hb]
  rw [List.getElem?_set_ne (Ne.symm hij), List.getElem?_set_eq_of_lt b hi]

lemma reorderStep_noop_of_plain {ps : List ChildState} {k : ℕ}
    (h : plainAt ps k = true) : reorderStep ps k = ps := by
  unfold reorderStep
  cases hk : ps[k]? with
  | none => rfl
  | some c =>
      rw [plainAt, hk] at h
      simp only [Option.all_some, Bool.not_eq_eq_eq_not, Bool.not_true] at h
      simp [h]

lemma reorderStep_noop_last {ps : List ChildState} {k : ℕ}
    (h : k = ps.length - 1) : reorderStep ps k = ps := by
  unfold reorderStep
  cases hk : ps[k]? with
  | none => rfl
  | some c => simp [h]

lemma reorderAux_noop : ∀ (fuel : ℕ) (ps : List ChildState) (i : ℕ),
    (∀ k, i ≤ k → k < i + fuel → reorderStep ps k = ps) →
    reorderAux ps i fuel = ps
  | 0, _, _, _ => rfl
  | fuel + 1, ps, i, h => by
      rw [reorderAux, h i le_rfl (by omega)]
      exact reorderAux_noop fuel ps (i + 1)
        (fun k hk1 hk2 => h k (by omega) (by omega))

lemma reorderAux_split : ∀ (a : ℕ) (ps : List ChildState) (i b : ℕ),
    reorderAux ps i (a + b) = reorderAux (reorderAux ps i a) (i + a) b
  | 0, ps, i, b => by simp [reorderAux]
  | a + 1, ps, i, b => by
      have : a + 1 + b = (a + b) + 1 := by omega
      rw [this, reorderAux, reorderAux, reorderAux_split a _ (i + 1) b]
      congr 1
      omega

/-- If every position is either the last one or holds a plain child, the
reordering pass is the identity. -/
lemma reorder_noop {ps : List ChildState}
    (h : ∀ k, k < ps.length → k = ps.length - 1 ∨ plainAt ps k = true) :
    reorder ps = ps := by
  apply reorderAux_noop
  intro k _ hk2
  rcases h k (by omega) with hl | hp
  · exact reorderStep_noop_last hl
  · exact reorderStep_noop_of_plain hp

/-- A child is a plain (non-VA) scan whose execution yields the
candidate set `s`. -/
def plainValid (c : ChildState) (s : TIDBitmap) : Prop :=
  c.isVAIndex = false ∧ c.output = some s

lemma foldl_inter_empty : ∀ (outs : List TIDBitmap),
    outs.foldl (· ∩ ·) ∅ = ∅
  | [] => rfl
  | s :: rest => by
      rw [List.foldl_cons, Finset.empty_inter]
      exact foldl_inter_empty rest

lemma mem_foldl_inter : ∀ (outs : List TIDBitmap) (a : TIDBitmap) (x : ℕ),
    x ∈ outs.foldl (· ∩ ·) a ↔ x ∈ a ∧ ∀ s ∈ outs, x ∈ s
  | [], a, x => by simp
  | s :: rest, a, x => by
      rw [List.foldl_cons, mem_foldl_inter rest]
      simp only [Finset.mem_inter, List.mem_cons]
      constructor
      · rintro ⟨⟨hx, hs⟩, hrest⟩
        exact ⟨hx, fun t ht => ht.elim (fun e => e ▸ hs) (hrest t)⟩
      · rintro ⟨hx, hall⟩
        exact ⟨⟨hx, hall s (.inl rfl)⟩, fun t ht => hall t (.inr ht)⟩

lemma execStep_plain_none {limit : Int} {i : ℕ} {pc : Option AdamScanClause}
    {c : ChildState} {s : TIDBitmap}
    (hVA : c.isVAIndex = false) (hout : c.output = some s) :
    execStep limit i pc none c = .ok (c, pc, s) := by
  unfold execStep
  simp [hVA, hout]

lemma execStep_plain_some {limit : Int} {i : ℕ} {pc : Option AdamScanClause}
    {c : ChildState} {s r : TIDBitmap}
    (hVA : c.isVAIndex = false) (hout : c.output = some s) :
    execStep limit i pc (some r) c = .ok (c, pc, r ∩ s) := by
  unfold execStep
  simp [hVA, hout]

lemma execStep_va_clause {limit : Int} {i : ℕ} {cl : AdamScanClause}
    {res : Option TIDBitmap} {c : ChildState} {s : TIDBitmap}
    (hVA : c.isVAIndex = true) (hout : c.output = some s) :
    execStep limit i (some cl) res c =
      .ok (⟨true, c.output, some (res.getD ∅), true⟩,
        some (if i ≠ 0 then ⟨true, limit⟩ else ⟨false, -1⟩), s) := by
  unfold execStep
  cases res <;> simp [hVA, hout]

lemma execStep_va_no_clause {limit : Int} {i : ℕ}
    {res : Option TIDBitmap} {c : ChildState} {s : TIDBitmap}
    (hVA : c.isVAIndex = true) (hout : c.output = some s) :
    execStep limit i none res c =
      .ok (⟨true, c.output, some (res.getD ∅), false⟩, none,
        (res.getD ∅) ∩ s) := by
  unfold execStep
  cases res <;> simp [hVA, hout]

lemma execStep_invalid {limit : Int} {i : ℕ} {pc : Option AdamScanClause}
    {res : Option TIDBitmap} {c : ChildState} (hout : c.output = none) :
    execStep limit i pc res c = .error .UnrecognizedResult := by
  unfold execStep
  by_cases hVA : c.isVAIndex = true <;> simp [hVA, hout]

/-- Running the loop over plain children with outputs `outs`, starting
from accumulator `a`, succeeds and ends with the running intersection as
the accumulator (the early break on an empty intermediate result does
not change it). -/
lemma execLoop_all_plain (limit : Int) :
    ∀ {l : List ChildState} {outs : List TIDBitmap},
    List.Forall₂ plainValid l outs → ∀ (i : ℕ) (pc : Option AdamScanClause)
    (a : TIDBitmap),
    ∃ accums, execLoop limit l i pc (some a) =
      .ok (l, pc, some (outs.foldl (· ∩ ·) a), accums) := by
  intro l outs h
  induction h with
  | nil => intro i pc a; exact ⟨[], rfl⟩
  | @cons c s rest outs1 hcs hrest ih =>
      intro i pc a
      rw [execLoop, execStep_plain_some hcs.1 hcs.2]
      by_cases he : a ∩ s = ∅
      · refine ⟨[a ∩ s], ?_⟩
        simp [he, List.foldl_cons, foldl_inter_empty]
      · obtain ⟨accums, hrec⟩ := ih (i + 1) pc (a ∩ s)
        refine ⟨(a ∩ s) :: accums, ?_⟩
        simp [he, List.foldl_cons, hrec]

/-- Same as `execLoop_all_plain` but starting from a null accumulator:
the first plain child's output is adopted, then intersected with the
rest. -/
lemma execLoop_all_plain_none (limit : Int) :
    ∀ {l : List ChildState} {outs : List TIDBitmap},
    List.Forall₂ plainValid l outs → l ≠ [] →
    ∀ (i : ℕ) (pc : Option AdamScanClause),
    ∃ accums, execLoop limit l i pc none =
      .ok (l, pc, some (accOf outs), accums) := by
  intro l outs h
  induction h with
  | nil => intro hne; exact absurd rfl hne
  | @cons c s rest outs1 hcs hrest _ =>
      intro _ i pc
      rw [execLoop, execStep_plain_none hcs.1 hcs.2]
      by_cases he : s = ∅
      · refine ⟨[s], ?_⟩
        simp [he, accOf, foldl_inter_empty]
      · obtain ⟨accums, hrec⟩ := execLoop_all_plain limit hrest (i + 1) pc s
        exact ⟨s :: accums, by simp [he, hrec, accOf]⟩

/-- Running the loop on `front ++ rest` where `front` is a run of plain
children whose running intersections stay non-empty: the loop passes
through `front` unchanged and continues into `rest` with the running
intersection as accumulator and the loop index advanced by
`front.length`. -/
lemma execLoop_front (limit : Int) :
    ∀ {front : List ChildState} {outs : List TIDBitmap},
    List.Forall₂ plainValid front outs →
    ∀ (a : TIDBitmap), noBreak a outs = true →
    ∀ (rest : List ChildState) (i : ℕ) (pc : Option AdamScanClause),
    (∀ e, execLoop limit rest (i + front.length) pc
        (some (outs.foldl (· ∩ ·) a)) = .error e →
      execLoop limit (front ++ rest) i pc (some a) = .error e) ∧
    (∀ rest1 pc2 res2 accums,
      execLoop limit rest (i + front.length) pc
          (some (outs.foldl (· ∩ ·) a)) = .ok (rest1, pc2, res2, accums) →
      ∃ accums2, execLoop limit (front ++ rest) i pc (some a) =
        .ok (front ++ rest1, pc2, res2, accums2)) := by
  intro front outs h
  induction h with
  | nil =>
      intro a _ rest i pc
      constructor
      · intro e he
        simpa using he
      · intro rest1 pc2 res2 accums hok
        exact ⟨accums, by simpa using hok⟩
  | @cons c s front1 outs1 hcs hrest ih =>
      intro a hnb rest i pc
      rw [noBreak] at hnb
      by_cases he : a ∩ s = ∅
      · rw [if_pos he] at hnb; exact absurd hnb (by simp)
      · rw [if_neg he] at hnb
        have hlen : i + 1 + front1.length = i + (c :: front1).length := by
          simp; omega
        have hfold : outs1.foldl (· ∩ ·) (a ∩ s) =
            (s :: outs1).foldl (· ∩ ·) a := by rw [List.foldl_cons]
        obtain ⟨ihe, ihok⟩ := ih (a ∩ s) hnb rest (i + 1) pc
        rw [hlen, hfold] at ihe ihok
        constructor
        · intro e hrec
          have := ihe e hrec
          rw [List.cons_append, execLoop,
            execStep_plain_some hcs.1 hcs.2]
          simp [he, this]
        · intro rest1 pc2 res2 accums hrec
          obtain ⟨accums2, hok⟩ := ihok rest1 pc2 res2 accums hrec
          refine ⟨(a ∩ s) :: accums2, ?_⟩
          rw [List.cons_append, execLoop,
            execStep_plain_some hcs.1 hcs.2]
          simp [he, hok]

/-- Invariant of the AND loop's accumulator trace: every entry before
the last is non-empty (the loop breaks at the first empty value), and
the final accumulator is the last entry (or the starting value when
nothing was executed). -/
lemma execLoop_accums (limit : Int) :
    ∀ (l : List ChildState) (i : ℕ) (pc : Option AdamScanClause)
    (a : Option TIDBitmap) {l1 pc1 res accums},
    execLoop limit l i pc a = .ok (l1, pc1, res, accums) →
    (∀ j, j + 1 < accums.length → accums[j]? ≠ some ∅) ∧
    (accums = [] → res = a) ∧
    (accums ≠ [] → res = accums[accums.length - 1]?)
  | [], i, pc, a, l1, pc1, res, accums => by
      intro h
      rw [execLoop] at h
      simp only [Except.ok.injEq, Prod.mk.injEq] at h
      obtain ⟨-, -, hres, haccums⟩ := h
      subst hres; subst haccums
      exact ⟨by simp, fun _ => rfl, by simp⟩
  | c :: rest, i, pc, a, l1, pc1, res, accums => by
      intro h
      rw [execLoop] at h
      cases hstep : execStep limit i pc a c with
      | error e => rw [hstep] at h; exact absurd h (by simp)
      | ok trip =>
          obtain ⟨c1, pc2, newres⟩ := trip
          rw [hstep] at h
          dsimp only at h
          by_cases he : newres = ∅
          · rw [if_pos he] at h
            simp only [Except.ok.injEq, Prod.mk.injEq] at h
            obtain ⟨-, -, hres, haccums⟩ := h
            subst hres; subst haccums
            refine ⟨by simp, by simp, fun _ => by simp⟩
          · rw [if_neg he] at h
            cases hrec : execLoop limit rest (i + 1) pc2 (some newres) with
            | error e => rw [hrec] at h; exact absurd h (by simp)
            | ok quad =>
                obtain ⟨rest1, pc3, res3, accums3⟩ := quad
                rw [hrec] at h
                dsimp only at h
                simp only [Except.ok.injEq, Prod.mk.injEq] at h
                obtain ⟨-, -, hres, haccums⟩ := h
                subst hres; subst haccums
                obtain ⟨ih1, ih2, ih3⟩ :=
                  execLoop_accums limit rest (i + 1) pc2 (some newres) hrec
                refine ⟨?_, by simp, ?_⟩
                · intro j hj
                  cases j with
                  | zero =>
                      simp only [List.getElem?_cons_zero]
                      intro hcon
                      exact he (by injection hcon)
                  | succ j =>
                      simp only [List.getElem?_cons_succ]
                      exact ih1 j (by simpa using hj)
                · intro _
                  cases haccums3 : accums3 with
                  | nil =>
                      subst haccums3
                      simpa using ih2 rfl
                  | cons b bs =>
                      subst haccums3
                      have hlen : (newres :: b :: bs).length - 1 =
                          bs.length + 1 := by simp
                      rw [hlen, List.getElem?_cons_succ]
                      simpa using ih3 (by simp)

/-- A loop over a non-empty child list that succeeds executed at least
one child and produced a non-null accumulator. -/
lemma execLoop_cons_ok (limit : Int) {c : ChildState}
    {rest : List ChildState} {i : ℕ} {pc : Option AdamScanClause}
    {a : Option TIDBitmap} {l1 pc1 res accums}
    (h : execLoop limit (c :: rest) i pc a = .ok (l1, pc1, res, accums)) :
    accums ≠ [] ∧ ∃ r, res = some r := by
  rw [execLoop] at h
  cases hstep : execStep limit i pc a c with
  | error e => rw [hstep] at h; exact absurd h (by simp)
  | ok trip =>
      obtain ⟨c1, pc2, newres⟩ := trip
      rw [hstep] at h
      dsimp only at h
      by_cases he : newres = ∅
      · rw [if_pos he] at h
        simp only [Except.ok.injEq, Prod.mk.injEq] at h
        obtain ⟨-, -, hres, haccums⟩ := h
        subst hres; subst haccums
        exact ⟨by simp, newres, rfl⟩
      · rw [if_neg he] at h
        cases hrec : execLoop limit rest (i + 1) pc2 (some newres) with
        | error e => rw [hrec] at h; exact absurd h (by simp)
        | ok quad =>
            obtain ⟨rest1, pc3, res3, accums3⟩ := quad
            rw [hrec] at h
            dsimp only at h
            simp only [Except.ok.injEq, Prod.mk.injEq] at h
            obtain ⟨-, -, hres, haccums⟩ := h
            subst hres; subst haccums
            obtain ⟨ih1, ih2, ih3⟩ :=
              execLoop_accums limit rest (i + 1) pc2 (some newres) hrec
            refine ⟨by simp, ?_⟩
            cases haccums3 : accums3 with
            | nil => exact ⟨newres, by rw [ih2 haccums3]⟩
            | cons b bs =>
                have := ih3 (by simp [haccums3])
                rw [haccums3] at this
                have hlt : bs.length < (b :: bs).length := by simp
                simp only [List.length_cons, Nat.add_sub_cancel] at this
                rw [this]
                exact ⟨(b :: bs)[bs.length], by
                  rw [List.getElem?_eq_getElem hlt]⟩

/-- If the only VA probe sits at position `p` strictly before the last
position, the reordering pass swaps it with the last element and does
nothing else. -/
lemma reorder_eq_swap {ps : List ChildState} {p : ℕ} {probe : ChildState}
    (hp : ps[p]? = some probe) (hVA : probe.isVAIndex = true)
    (hothers : ∀ j, j < ps.length → j ≠ p → plainAt ps j = true)
    (hlt : p < ps.length - 1) :
    reorder ps = listSwap ps p (ps.length - 1) := by
  have hplen : p < ps.length := by omega
  have h1 : reorderAux ps 0 p = ps := by
    apply reorderAux_noop
    intro k _ hk2
    exact reorderStep_noop_of_plain (hothers k (by omega) (by omega))
  have hstep : reorderStep ps p = listSwap ps p (ps.length - 1) := by
    rw [reorderStep, hp]
    simp [hVA, show p ≠ ps.length - 1 by omega]
  have hqlen : (listSwap ps p (ps.length - 1)).length = ps.length :=
    listSwap_length ps p (ps.length - 1)
  calc reorder ps
      = reorderAux ps 0 (p + (ps.length - p)) := by rw [reorder]; congr 1; omega
    _ = reorderAux (reorderAux ps 0 p) (0 + p) (ps.length - p) :=
        reorderAux_split p ps 0 (ps.length - p)
    _ = reorderAux ps p ((ps.length - p - 1) + 1) := by
        rw [h1]; congr 1 <;> omega
    _ = reorderAux (listSwap ps p (ps.length - 1)) (p + 1) (ps.length - p - 1) := by
        rw [reorderAux, hstep]
    _ = listSwap ps p (ps.length - 1) := by
        apply reorderAux_noop
        intro k hk1 hk2
        rcases eq_or_ne k (ps.length - 1) with hl | hne
        · exact reorderStep_noop_last (by omega)
        · have hkp : k ≠ p := by omega
          apply reorderStep_noop_of_plain
          rw [plainAt, listSwap_getElem?_other ps hkp hne]
          exact hothers k (by omega) hkp

lemma plainAt_of_forall₂ : ∀ {l : List ChildState} {outs : List TIDBitmap},
    List.Forall₂ plainValid l outs → ∀ j, plainAt l j = true := by
  intro l outs h
  induction h with
  | nil => intro j; rfl
  | @cons c s rest outs1 hcs _ ih =>
      intro j
      cases j with
      | zero => simp [plainAt, hcs.1]
      | succ j => simpa [plainAt] using ih j

lemma mem_accOf {outs : List TIDBitmap} (hne : outs ≠ []) (x : ℕ) :
    x ∈ accOf outs ↔ ∀ s ∈ outs, x ∈ s := by
  cases outs with
  | nil => exact absurd rfl hne
  | cons s rest =>
      rw [accOf, mem_foldl_inter]
      constructor
      · rintro ⟨hs, hrest⟩ t ht
        rcases List.mem_cons.mp ht with rfl | ht
        · exact hs
        · exact hrest t ht
      · intro hall
        exact ⟨hall s (List.mem_cons_self s rest),
          fun t ht => hall t (List.mem_cons_of_mem s ht)⟩

lemma reorderStep_length (ps : List ChildState) (k : ℕ) :
    (reorderStep ps k).length = ps.length := by
  unfold reorderStep
  cases ps[k]? with
  | none => rfl
  | some c =>
      dsimp only
      split
      · exact listSwap_length ps k (ps.length - 1)
      · rfl

lemma reorderAux_length : ∀ (fuel : ℕ) (ps : List ChildState) (i : ℕ),
    (reorderAux ps i fuel).length = ps.length
  | 0, _, _ => rfl
  | fuel + 1, ps, i => by
      rw [reorderAux, reorderAux_length fuel, reorderStep_length]

lemma reorder_length (ps : List ChildState) :
    (reorder ps).length = ps.length :=
  reorderAux_length ps.length ps 0

lemma execStep_error {limit : Int} {i : ℕ} {pc : Option AdamScanClause}
    {res : Option TIDBitmap} {c : ChildState} {e : ExecError}
    (h : execStep limit i pc res c = .error e) : e = .UnrecognizedResult := by
  cases hout : c.output with
  | none => rw [execStep_invalid hout] at h; injection h with h; exact h.symm
  | some s =>
      by_cases hVA : c.isVAIndex = true
      · cases pc with
        | none => rw [execStep_va_no_clause hVA hout] at h; exact absurd h (by simp)
        | some cl => rw [execStep_va_clause hVA hout] at h; exact absurd h (by simp)
      · cases res with
        | none =>
            rw [execStep_plain_none (by simpa using hVA) hout] at h
            exact absurd h (by simp)
        | some r =>
            rw [execStep_plain_some (by simpa using hVA) hout] at h
            exact absurd h (by simp)

lemma execLoop_error_unrecognized (limit : Int) :
    ∀ (l : List ChildState) (i : ℕ) (pc : Option AdamScanClause)
    (a : Option TIDBitmap) {e : ExecError},
    execLoop limit l i pc a = .error e → e = .UnrecognizedResult
  | [], i, pc, a, e => by intro h; exact absurd h (by rw [execLoop]; simp)
  | c :: rest, i, pc, a, e => by
      intro h
      rw [execLoop] at h
      cases hstep : execStep limit i pc a c with
      | error e1 =>
          rw [hstep] at h
          dsimp only at h
          injection h with h
          subst h
          exact execStep_error hstep
      | ok trip =>
          obtain ⟨c1, pc2, newres⟩ := trip
          rw [hstep] at h
          dsimp only at h
          by_cases he : newres = ∅
          · rw [if_pos he] at h; exact absurd h (by simp)
          · rw [if_neg he] at h
            cases hrec : execLoop limit rest (i + 1) pc2 (some newres) with
            | error e2 =>
                rw [hrec] at h
                dsimp only at h
                injection h with h
                subst h
                exact execLoop_error_unrecognized limit rest (i + 1) pc2
                  (some newres) hrec
            | ok quad =>
                obtain ⟨r1, p3, r3, a3⟩ := quad
                rw [hrec] at h
                exact absurd h (by simp)

/-- Claim C2: for every n >= 1 plain (non-similarity-probe) children
whose executions produce candidate sets S1...Sn, `MultiExecBitmapAnd`
returns exactly the set-intersection of S1...Sn; skipping children past
the first empty intermediate result does not change the value. -/
theorem plain_children_result_eq_intersection
    (node : BitmapAndState) (outs : List TIDBitmap)
    (h : List.Forall₂ plainValid node.bitmapplans outs)
    (hne : node.bitmapplans ≠ []) :
    ∃ o, MultiExecBitmapAnd node = .ok o ∧
      ∀ x, x ∈ o.result ↔ ∀ s ∈ outs, x ∈ s := by
  have hre : reorder node.bitmapplans = node.bitmapplans :=
    reorder_noop (fun k _ => .inr (plainAt_of_forall₂ h k))
  obtain ⟨accums, hloop⟩ :=
    execLoop_all_plain_none node.limit h hne 0 node.adamPlanClause
  refine ⟨⟨node.bitmapplans, node.adamPlanClause, accOf outs, accums⟩, ?_, ?_⟩
  · rw [MultiExecBitmapAnd, hre, hloop]
  · intro x
    have houts : outs ≠ [] := by
      intro hcon
      apply hne
      have := h.length_eq
      rw [hcon] at this
      exact List.length_eq_zero.mp (by simpa using this)
    exact mem_accOf houts x

/-- Claim C3: if after processing some executed child (the `k`-th, i.e.
`accums[k]`) the accumulator is empty, then `MultiExecBitmapAnd` returns
the empty candidate set and no further child is executed: exactly the
children at positions `0..k` of the reordered sequence ran
(`accums.length = k + 1`). -/
theorem empty_accumulator_stops_execution
    (node : BitmapAndState) (o : ExecOutcome) (k : ℕ)
    (hok : MultiExecBitmapAnd node = .ok o)
    (hempty : o.accums[k]? = some ∅) :
    o.result = ∅ ∧ o.accums.length = k + 1 := by
  rw [MultiExecBitmapAnd] at hok
  cases hloop : execLoop node.limit (reorder node.bitmapplans) 0
      node.adamPlanClause none with
  | error e => rw [hloop] at hok; exact absurd hok (by simp)
  | ok quad =>
      obtain ⟨plans1, pc, res, accums⟩ := quad
      rw [hloop] at hok
      dsimp only at hok
      cases res with
      | none => exact absurd hok (by simp)
      | some r =>
          simp only [Except.ok.injEq] at hok
          subst hok
          obtain ⟨h1, _, h3⟩ := execLoop_accums node.limit
            (reorder node.bitmapplans) 0 node.adamPlanClause none hloop
          simp only at hempty h1 h3 ⊢
          have hk : k < accums.length :=
            (List.getElem?_eq_some.mp hempty).1
          have hlast : accums.length = k + 1 := by
            by_contra hcon
            exact (h1 k (by omega)) hempty
          refine ⟨?_, hlast⟩
          have hres := h3 (by intro hcon; rw [hcon] at hk; simp at hk)
          rw [hlast] at hres
          simp only [Nat.add_sub_cancel] at hres
          rw [hempty] at hres
          injection hres

/-- Concrete child lists used to refute claim C4 as stated: one VA probe
at position 0, two distinguishable plain children after it. -/
def psC4 : List ChildState :=
  [⟨true, some ∅, none, false⟩, ⟨false, some {1}, none, false⟩,
    ⟨false, some {2}, none, false⟩]

/-- Claim C4 as stated is false: on a sequence with exactly one probe at
a non-last position, the pass swaps the probe with the last child, so
the plain children do NOT retain their relative order — the result is
not the stable removal of the probe followed by the probe at the end. -/
theorem reorder_not_stable_cex :
    (psC4.filter fun c => c.isVAIndex).length = 1 ∧
    psC4.length = 3 ∧
    (psC4[0]?.all fun c => c.isVAIndex) = true ∧
    reorder psC4 ≠ stableReorder psC4 := by decide

/-- Claim C4, amended: given exactly one similarity probe at position
`p` other than the last, the reordering pass moves the probe into the
last position by SWAPPING it with the formerly-last child: that child
takes the probe's original slot and all remaining children keep their
positions (relative order of the non-probe children is not preserved in
general). -/
theorem reorder_swaps_probe_with_last
    (ps : List ChildState) (p : ℕ) (probe : ChildState)
    (hp : ps[p]? = some probe) (hVA : probe.isVAIndex = true)
    (hothers : ∀ j, j < ps.length → j ≠ p → plainAt ps j = true)
    (hlt : p < ps.length - 1) :
    reorder ps = listSwap ps p (ps.length - 1) :=
  reorder_eq_swap hp hVA hothers hlt

/-- Claim C5: with n > 1 children containing exactly one similarity
probe (at position `p`), the reordering pass leaves the probe in the
last execution slot regardless of `p`; if the probe is already last the
pass changes nothing, and running the pass twice equals running it
once. -/
theorem reorder_puts_probe_last_and_idempotent
    (ps : List ChildState) (p : ℕ) (probe : ChildState)
    (hn : 1 < ps.length)
    (hp : ps[p]? = some probe) (hVA : probe.isVAIndex = true)
    (hothers : ∀ j, j < ps.length → j ≠ p → plainAt ps j = true) :
    (reorder ps)[ps.length - 1]? = some probe ∧
    reorder (reorder ps) = reorder ps ∧
    (p = ps.length - 1 → reorder ps = ps) := by
  have hplen : p < ps.length := (List.getElem?_eq_some.mp hp).1
  rcases eq_or_lt_of_le (show p ≤ ps.length - 1 by omega) with heq | hlt
  · have hre : reorder ps = ps := by
      apply reorder_noop
      intro k hk
      rcases eq_or_ne k (ps.length - 1) with h | h
      · exact .inl h
      · exact .inr (hothers k hk (by omega))
    rw [hre]
    exact ⟨by rw [← heq]; exact hp, by rw [hre], fun _ => rfl⟩
  · have hre := reorder_eq_swap hp hVA hothers hlt
    have hlast : ps[ps.length - 1]? = some ps[ps.length - 1] :=
      List.getElem?_eq_getElem (by omega)
    have hplain : plainAt ps (ps.length - 1) = true :=
      hothers (ps.length - 1) (by omega) (by omega)
    have hq1 : (listSwap ps p (ps.length - 1))[ps.length - 1]? = some probe :=
      listSwap_getElem?_snd ps hp hlast
    have hqlen : (listSwap ps p (ps.length - 1)).length = ps.length :=
      listSwap_length ps p (ps.length - 1)
    have hq2 : reorder (listSwap ps p (ps.length - 1)) =
        listSwap ps p (ps.length - 1) := by
      apply reorder_noop
      intro k hk
      rcases eq_or_ne k ((listSwap ps p (ps.length - 1)).length - 1) with h | h
      · exact .inl h
      · right
        rw [hqlen] at hk h
        rcases eq_or_ne k p with hkp | hkp
        · subst hkp
          have hql : (listSwap ps k (ps.length - 1))[k]? =
              some ps[ps.length - 1] :=
            listSwap_getElem?_fst ps (by omega) hp hlast
          rw [plainAt, hql]
          rw [plainAt, hlast] at hplain
          exact hplain
        · rw [plainAt, listSwap_getElem?_other ps hkp h]
          exact hothers k hk hkp
    rw [hre]
    exact ⟨hq1, hq2, fun hcon => by omega⟩

/-- Claim C6: when the similarity probe with an attached clause is the
sole child (n = 1, so it executes at loop index 0), `MultiExecBitmapAnd`
leaves the clause with `nn_limit = -1` and `check_tid = false`, sets the
probe's `biss_result` to a freshly created empty accumulator, and
returns the probe's unfiltered output. -/
theorem sole_probe_clause_unlimited_unfiltered
    (node : BitmapAndState) (probe : ChildState) (s : TIDBitmap)
    (cl : AdamScanClause)
    (hplans : node.bitmapplans = [probe])
    (hVA : probe.isVAIndex = true)
    (hout : probe.output = some s)
    (hcl : node.adamPlanClause = some cl) :
    MultiExecBitmapAnd node =
      .ok ⟨[⟨true, probe.output, some ∅, true⟩], some ⟨false, -1⟩, s, [s]⟩ := by
  have hre : reorder [probe] = [probe] := by
    apply reorder_noop
    intro k hk
    left
    simp only [List.length_cons, List.length_nil] at hk ⊢
    omega
  rw [MultiExecBitmapAnd, hplans, hre, hcl, execLoop,
    execStep_va_clause hVA hout]
  dsimp only
  by_cases hs : s = ∅ <;> simp [hs, execLoop]

/-- Claim C10: if a VA-index probe is reached while the accumulator is
still null (it is the first executed child, in particular the sole
child) and the plan carries no `AdamScanClause`, the code creates a
fresh empty accumulator, stores it as the probe's `biss_result`, and
then INTERSECTS the probe's output into that empty accumulator, so
`MultiExecBitmapAnd` returns the empty candidate set whatever the probe
produced. -/
theorem probe_without_clause_empty_result
    (node : BitmapAndState) (probe : ChildState) (rest : List ChildState)
    (s : TIDBitmap)
    (hre : reorder node.bitmapplans = probe :: rest)
    (hVA : probe.isVAIndex = true)
    (hout : probe.output = some s)
    (hcl : node.adamPlanClause = none) :
    MultiExecBitmapAnd node =
      .ok ⟨⟨true, probe.output, some ∅, false⟩ :: rest, none, ∅, [∅]⟩ := by
  rw [MultiExecBitmapAnd, hre, hcl, execLoop,
    execStep_va_no_clause hVA hout]
  simp

/-- Concrete node refuting claim C1 as stated: two children, the plain
one yields an empty set, the only probe (with an attached clause,
initially `⟨false, 5⟩`) is last; `limit = 10`. -/
def nodeC1cex : BitmapAndState :=
  ⟨[⟨false, some ∅, none, false⟩, ⟨true, some {7}, none, false⟩],
    some ⟨false, 5⟩, 10⟩

/-- Claim C1 as stated is false: the probe is combined with one other
child and carries an attached clause, but because the plain child's
empty result short-circuits the loop the probe never runs — the clause
ends the execution unchanged at `⟨false, 5⟩` (not
`⟨true, limit⟩ = ⟨true, 10⟩`) and the returned set is the empty prior
accumulator, not the probe's output `{7}`. -/
theorem probe_with_siblings_shortcircuit_cex :
    nodeC1cex.bitmapplans.length = 2 ∧
    (nodeC1cex.bitmapplans.filter fun c => c.isVAIndex).length = 1 ∧
    nodeC1cex.adamPlanClause = some ⟨false, 5⟩ ∧
    MultiExecBitmapAnd nodeC1cex =
      .ok ⟨nodeC1cex.bitmapplans, some ⟨false, 5⟩, ∅, [∅]⟩ ∧
    (some (⟨false, 5⟩ : AdamScanClause) ≠
      some ⟨true, nodeC1cex.limit⟩) ∧
    ((∅ : TIDBitmap) ≠ {7}) := by decide

/-- Claim C1, amended: when the similarity probe with an attached clause
is combined with at least one other child (so after reordering it sits
last, at a loop index other than 0) AND the execution actually reaches
the probe — every earlier child returns a valid candidate set and no
running intersection is empty — the clause ends the execution with
`nn_limit = limit` and `check_tid = true`, the probe's `biss_result` is
set to the prior accumulator (the running intersection of the earlier
outputs), and `MultiExecBitmapAnd` returns the probe's own output, not
intersected with the prior accumulator. -/
theorem probe_with_siblings_clause_config_and_substitution
    (node : BitmapAndState) (front : List ChildState)
    (outs : List TIDBitmap) (probe : ChildState) (s : TIDBitmap)
    (cl : AdamScanClause)
    (hre : reorder node.bitmapplans = front ++ [probe])
    (hfront : front ≠ [])
    (hvalid : List.Forall₂ plainValid front outs)
    (hfOK : frontOK outs = true)
    (hVA : probe.isVAIndex = true)
    (hout : probe.output = some s)
    (hcl : node.adamPlanClause = some cl) :
    ∃ accums,
      MultiExecBitmapAnd node =
        .ok ⟨front ++ [⟨true, probe.output, some (accOf outs), true⟩],
          some ⟨true, node.limit⟩, s, accums⟩ := by
  have hprobe : ∀ i : ℕ, i ≠ 0 →
      execLoop node.limit [probe] i (some cl) (some (accOf outs)) =
        .ok ([⟨true, probe.output, some (accOf outs), true⟩],
          some ⟨true, node.limit⟩, some s, [s]) := by
    intro i hi
    rw [execLoop, execStep_va_clause hVA hout]
    dsimp only
    rw [if_pos hi]
    by_cases hs : s = ∅ <;> simp [hs, execLoop]
  cases hvalid with
  | nil => exact absurd rfl hfront
  | @cons c s0 front1 outs1 hcs hrest =>
      rw [frontOK] at hfOK
      by_cases hs0 : s0 = ∅
      · rw [if_pos hs0] at hfOK; exact absurd hfOK (by simp)
      · rw [if_neg hs0] at hfOK
        obtain ⟨-, ihok⟩ :=
          execLoop_front node.limit hrest s0 hfOK [probe] 1 (some cl)
        have hidx : 1 + front1.length ≠ 0 := by omega
        have hfold : outs1.foldl (· ∩ ·) s0 = accOf (s0 :: outs1) := rfl
        rw [hfold] at ihok
        obtain ⟨accums2, hloop1⟩ :=
          ihok _ _ _ _ (hprobe (1 + front1.length) hidx)
        refine ⟨s0 :: accums2, ?_⟩
        rw [MultiExecBitmapAnd, hre, hcl, List.cons_append, execLoop,
          execStep_plain_none hcs.1 hcs.2]
        dsimp only
        rw [if_neg hs0, hloop1]
        rfl

/-- Claim C7: `MultiExecBitmapAnd` fails with `NoChildren` exactly when
the child list was empty at initialization; a successful call implies a
non-empty child list and at least one executed child; and if the
execution reaches a child whose result is not a valid candidate set
(every earlier child is plain with a valid output and no running
intersection is empty), it fails with `UnrecognizedResult`. -/
theorem exec_error_conditions (node : BitmapAndState) :
    (MultiExecBitmapAnd node = .error .NoChildren ↔
      node.bitmapplans = []) ∧
    (∀ o, MultiExecBitmapAnd node = .ok o →
      node.bitmapplans ≠ [] ∧ o.accums ≠ []) ∧
    (∀ front outs c rest,
      reorder node.bitmapplans = front ++ c :: rest →
      List.Forall₂ plainValid front outs → frontOK outs = true →
      c.output = none →
      MultiExecBitmapAnd node = .error .UnrecognizedResult) := by
  have hempty : node.bitmapplans = [] →
      MultiExecBitmapAnd node = .error .NoChildren := by
    intro h
    rw [MultiExecBitmapAnd, h]
    rfl
  refine ⟨⟨?_, hempty⟩, ?_, ?_⟩
  · intro herr
    by_contra hne
    cases hco : reorder node.bitmapplans with
    | nil =>
        have := reorder_length node.bitmapplans
        rw [hco] at this
        exact hne (List.length_eq_zero.mp this.symm)
    | cons c rest =>
        rw [MultiExecBitmapAnd, hco] at herr
        cases hloop : execLoop node.limit (c :: rest) 0
            node.adamPlanClause none with
        | error e =>
            rw [hloop] at herr
            injection herr with herr
            subst herr
            have := execLoop_error_unrecognized node.limit (c :: rest) 0
              node.adamPlanClause none hloop
            exact absurd this (by simp)
        | ok quad =>
            obtain ⟨plans1, pc, res, accums⟩ := quad
            obtain ⟨-, r, hr⟩ := execLoop_cons_ok node.limit hloop
            rw [hloop] at herr
            dsimp only at herr
            rw [hr] at herr
            exact absurd herr (by simp)
  · intro o hok
    have hne : node.bitmapplans ≠ [] := by
      intro hcon
      rw [hempty hcon] at hok
      exact absurd hok (by simp)
    refine ⟨hne, ?_⟩
    cases hco : reorder node.bitmapplans with
    | nil =>
        have := reorder_length node.bitmapplans
        rw [hco] at this
        exact absurd (List.length_eq_zero.mp this.symm) hne
    | cons c rest =>
        rw [MultiExecBitmapAnd, hco] at hok
        cases hloop : execLoop node.limit (c :: rest) 0
            node.adamPlanClause none with
        | error e => rw [hloop] at hok; exact absurd hok (by simp)
        | ok quad =>
            obtain ⟨plans1, pc, res, accums⟩ := quad
            obtain ⟨haccums, r, hr⟩ := execLoop_cons_ok node.limit hloop
            rw [hloop] at hok
            dsimp only at hok
            rw [hr] at hok
            simp only [Except.ok.injEq] at hok
            subst hok
            simpa using haccums
  · intro front outs c rest hco hvalid hfOK hout
    cases hvalid with
    | nil =>
        rw [MultiExecBitmapAnd, hco]
        simp only [List.nil_append]
        rw [execLoop, execStep_invalid hout]
    | @cons c0 s0 front1 outs1 hcs hrest =>
        rw [frontOK] at hfOK
        by_cases hs0 : s0 = ∅
        · rw [if_pos hs0] at hfOK; exact absurd hfOK (by simp)
        · rw [if_neg hs0] at hfOK
          obtain ⟨ihe, -⟩ :=
            execLoop_front node.limit hrest s0 hfOK (c :: rest) 1
              node.adamPlanClause
          have hinv : execLoop node.limit (c :: rest) (1 + front1.length)
              node.adamPlanClause
              (some (outs1.foldl (· ∩ ·) s0)) =
              .error .UnrecognizedResult := by
            rw [execLoop, execStep_invalid hout]
          have := ihe .UnrecognizedResult hinv
          rw [MultiExecBitmapAnd, hco, List.cons_append, execLoop,
            execStep_plain_none hcs.1 hcs.2]
          dsimp only
          rw [if_neg hs0, this]

/-- Claim C8: for every node pending changed-parameter set and child
pending set: when the node's set is non-empty it is merged (unioned)
into the child's pending set, and the child is then not rescanned by
this call (the merged set cannot be empty); in general a child is
rescanned immediately by this call exactly when its pending set is
empty after the merge step — including when the node's own set was
empty. -/
theorem rescan_merge_and_defer
    (nodeChg : ParamSet) (childChgs : List ParamSet) (k : ℕ)
    (cs : ParamSet) (hk : childChgs[k]? = some cs) :
    ∃ cs1 resc,
      (ExecReScanBitmapAnd nodeChg childChgs)[k]? = some (cs1, resc) ∧
      (nodeChg ≠ ∅ → cs1 = cs ∪ nodeChg ∧ resc = false) ∧
      (nodeChg = ∅ → cs1 = cs) ∧
      (resc = true ↔ cs1 = ∅) := by
  by_cases hne : nodeChg = ∅
  · subst hne
    refine ⟨cs, decide (cs = ∅), ?_, ?_, ?_, ?_⟩
    · rw [ExecReScanBitmapAnd, List.getElem?_map, hk]
      simp [rescanChild]
    · intro h; exact absurd rfl h
    · intro _; rfl
    · exact decide_eq_true_iff
  · have hu : cs ∪ nodeChg ≠ ∅ := by
      intro hcon
      exact hne (Finset.union_eq_empty.mp hcon).2
    refine ⟨cs ∪ nodeChg, false, ?_, ?_, ?_, ?_⟩
    · rw [ExecReScanBitmapAnd, List.getElem?_map, hk]
      simp [rescanChild, UpdateChangedParamSet, hne, hu]
    · intro _; exact ⟨rfl, rfl⟩
    · intro h; exact absurd h hne
    · simp [hu]

/-- Concrete plan refuting claim C9: two VA-probe children, a clause
attached, limit 7. -/
def nodeC9 : BitmapAnd :=
  ⟨[⟨true, some {1}⟩, ⟨true, some {2}⟩], some ⟨false, 5⟩, 7⟩

/-- Claim C9 as stated is false: with two similarity-probe children,
neither `ExecInitBitmapAnd` nor `MultiExecBitmapAnd` detects a
configuration error — execution completes successfully: the reordering
pass silently swaps every non-last probe into the last position and
both probes are configured and run in substitution mode. -/
theorem multiple_probes_not_detected_cex :
    ((ExecInitBitmapAnd nodeC9).bitmapplans.filter
      fun c => c.isVAIndex).length = 2 ∧
    MultiExecBitmapAnd (ExecInitBitmapAnd nodeC9) =
      .ok ⟨[⟨true, some {2}, some ∅, true⟩,
          ⟨true, some {1}, some {2}, true⟩],
        some ⟨true, 7⟩, {1}, [{2}, {1}]⟩ := by decide

/-- Claim C9, amended: more than one similarity-probe child is NOT
detected as an error anywhere — initialization performs no validation
and execution proceeds normally on a node with two probes (with valid
outputs), returning successfully instead of aborting. -/
theorem multiple_probes_execute_ok (s1 s2 : TIDBitmap)
    (cl : AdamScanClause) (lim : Int) :
    ∃ o, MultiExecBitmapAnd
      ⟨[⟨true, some s1, none, false⟩, ⟨true, some s2, none, false⟩],
        some cl, lim⟩ = .ok o := by
  have hre : reorder [(⟨true, some s1, none, false⟩ : ChildState),
      ⟨true, some s2, none, false⟩] =
      [⟨true, some s2, none, false⟩, ⟨true, some s1, none, false⟩] := by
    simp [reorder, reorderAux, reorderStep, listSwap]
  rw [MultiExecBitmapAnd]
  dsimp only
  rw [hre, execLoop, execStep_va_clause rfl rfl]
  dsimp only
  by_cases h2 : s2 = ∅
  · rw [if_pos h2]
    exact ⟨_, rfl⟩
  · rw [if_neg h2, execLoop, execStep_va_clause rfl rfl]
    dsimp only
    by_cases h1 : s1 = ∅
    · rw [if_pos h1]
      exact ⟨_, rfl⟩
    · rw [if_neg h1, execLoop]
      exact ⟨_, rfl⟩

/-- Concrete node for the C1 witness: one plain child then the probe. -/
def nodeC1w : BitmapAndState :=
  ⟨[⟨false, some {2, 4, 6}, none, false⟩, ⟨true, some {42}, none, false⟩],
    some ⟨false, 5⟩, 10⟩

/-- Witness instantiating the amended claim C1 at `nodeC1w`. -/
theorem probe_with_siblings_clause_config_and_substitution_witness :
    ∃ accums, MultiExecBitmapAnd nodeC1w =
      .ok ⟨[(⟨false, some {2, 4, 6}, none, false⟩ : ChildState)] ++
          [⟨true, some {42}, some (accOf [{2, 4, 6}]), true⟩],
        some ⟨true, nodeC1w.limit⟩, {42}, accums⟩ :=
  probe_with_siblings_clause_config_and_substitution nodeC1w
    [⟨false, some {2, 4, 6}, none, false⟩] [{2, 4, 6}]
    ⟨true, some {42}, none, false⟩ {42} ⟨false, 5⟩
    (by decide) (by decide) (.cons ⟨rfl, rfl⟩ .nil) (by decide) rfl rfl rfl

/-- Concrete node for the C2 witness (spec scenario 1). -/
def nodeC2w : BitmapAndState :=
  ⟨[⟨false, some {1, 3, 5, 7}, none, false⟩,
    ⟨false, some {3, 5, 9}, none, false⟩], none, 0⟩

/-- Witness instantiating claim C2 at `nodeC2w`. -/
theorem plain_children_result_eq_intersection_witness :
    ∃ o, MultiExecBitmapAnd nodeC2w = .ok o ∧
      ∀ x, x ∈ o.result ↔
        ∀ s ∈ [({1, 3, 5, 7} : TIDBitmap), {3, 5, 9}], x ∈ s :=
  plain_children_result_eq_intersection nodeC2w [{1, 3, 5, 7}, {3, 5, 9}]
    (.cons ⟨rfl, rfl⟩ (.cons ⟨rfl, rfl⟩ .nil)) (by decide)

/-- Concrete node for the C3 witness (spec scenario 2). -/
def nodeC3w : BitmapAndState :=
  ⟨[⟨false, some {1, 3, 5}, none, false⟩, ⟨false, some ∅, none, false⟩,
    ⟨false, some {9}, none, false⟩], none, 0⟩

/-- Outcome of executing `nodeC3w`: the second child empties the
accumulator, the third never runs. -/
def outC3w : ExecOutcome :=
  ⟨nodeC3w.bitmapplans, none, ∅, [{1, 3, 5}, ∅]⟩

/-- Witness instantiating claim C3 at `nodeC3w`, `k = 1`. -/
theorem empty_accumulator_stops_execution_witness :
    outC3w.result = ∅ ∧ outC3w.accums.length = 1 + 1 :=
  empty_accumulator_stops_execution nodeC3w outC3w 1 (by decide) (by decide)

/-- Witness instantiating the amended claim C4 at `psC4` (probe first,
two plain children after it). -/
theorem reorder_swaps_probe_with_last_witness :
    reorder psC4 = listSwap psC4 0 (psC4.length - 1) :=
  reorder_swaps_probe_with_last psC4 0 ⟨true, some ∅, none, false⟩
    (by decide) (by decide) (by decide) (by decide)

/-- Concrete child list for the C5 witness: probe first, one plain
child. -/
def psC5w : List ChildState :=
  [⟨true, some {4}, none, false⟩, ⟨false, some {5}, none, false⟩]

/-- Witness instantiating claim C5 at `psC5w`. -/
theorem reorder_puts_probe_last_and_idempotent_witness :
    (reorder psC5w)[psC5w.length - 1]? =
      some ⟨true, some {4}, none, false⟩ ∧
    reorder (reorder psC5w) = reorder psC5w ∧
    (0 = psC5w.length - 1 → reorder psC5w = psC5w) :=
  reorder_puts_probe_last_and_idempotent psC5w 0
    ⟨true, some {4}, none, false⟩ (by decide) (by decide) (by decide)
    (by decide)

/-- Concrete node for the C6 witness (spec scenario 4). -/
def nodeC6w : BitmapAndState :=
  ⟨[⟨true, some {7, 8}, none, false⟩], some ⟨true, 5⟩, 10⟩

/-- Witness instantiating claim C6 at `nodeC6w`. -/
theorem sole_probe_clause_unlimited_unfiltered_witness :
    MultiExecBitmapAnd nodeC6w =
      .ok ⟨[⟨true, some {7, 8}, some ∅, true⟩], some ⟨false, -1⟩,
        {7, 8}, [{7, 8}]⟩ :=
  sole_probe_clause_unlimited_unfiltered nodeC6w
    ⟨true, some {7, 8}, none, false⟩ {7, 8} ⟨true, 5⟩ rfl rfl rfl rfl

/-- Concrete node for the C7 witness: one child returning an invalid
result. -/
def nodeC7w : BitmapAndState := ⟨[⟨false, none, none, false⟩], none, 0⟩

/-- Witness instantiating claim C7 at `nodeC7w`: the `NoChildren`
biconditional, and the `UnrecognizedResult` failure for its invalid
child. -/
theorem exec_error_conditions_witness :
    (MultiExecBitmapAnd nodeC7w = .error .NoChildren ↔
      nodeC7w.bitmapplans = []) ∧
    MultiExecBitmapAnd nodeC7w = .error .UnrecognizedResult :=
  ⟨(exec_error_conditions nodeC7w).1,
    (exec_error_conditions nodeC7w).2.2 [] [] ⟨false, none, none, false⟩ []
      (by decide) .nil rfl rfl⟩

/-- Witness instantiating claim C8 at a non-empty node set `{1, 2}` and
a child pending set `{3}`. -/
theorem rescan_merge_and_defer_witness :
    ∃ cs1 resc,
      (ExecReScanBitmapAnd {1, 2} [{3}, ∅])[0]? = some (cs1, resc) ∧
      (({1, 2} : ParamSet) ≠ ∅ → cs1 = {3} ∪ {1, 2} ∧ resc = false) ∧
      (({1, 2} : ParamSet) = ∅ → cs1 = {3}) ∧
      (resc = true ↔ cs1 = ∅) :=
  rescan_merge_and_defer {1, 2} [{3}, ∅] 0 {3} (by decide)

/-- Concrete node for the C10 witness. -/
def nodeC10w : BitmapAndState :=
  ⟨[⟨true, some {5, 6}, none, false⟩], none, 10⟩

/-- Witness instantiating claim C10 at `nodeC10w`. -/
theorem probe_without_clause_empty_result_witness :
    MultiExecBitmapAnd nodeC10w =
      .ok ⟨[⟨true, some {5, 6}, some ∅, false⟩], none, ∅, [∅]⟩ :=
  probe_without_clause_empty_result nodeC10w
    ⟨true, some {5, 6}, none, false⟩ [] {5, 6} (by decide) rfl rfl rfl
